import Mathlib

/-!
Shallow embedding of `scripts/bom_bfr_format.py`, a KiCad BOM generator:
it groups the netlist's components under a custom four-field equivalence,
computes per-group order quantities scaled by a board count, and emits one
aggregate CSV plus one order CSV per supplier.  The definitions below are
translated from that script; the pieces it takes from the external
`kicad_netlist_reader` / `kicad_utils` libraries are modelled from the
spec's collaborator contract and marked as such.
-/

namespace BomBfr

/-- A schematic component as the external netlist reader delivers it: the four
attributes the script's equivalence compares (`getValue`, `getPartName`,
`getFootprint`, `getDNP`) plus its named fields. -/
structure comp where
  value : String
  partName : String
  footprint : String
  dnp : Bool
  fields : List (String × String)
deriving DecidableEq, Repr, Inhabited

/-- `myEqu` from the script: the custom component equivalence installed as
`kicad_netlist_reader.comp.__eq__`.  `result` starts `True` and the
`if`/`elif` chain clears it on the first differing attribute. -/
def myEqu (self other : comp) : Bool :=
  if self.value != other.value then false
  else if self.partName != other.partName then false
  else if self.footprint != other.footprint then false
  else if self.dnp != other.dnp then false
  else true

/-- Agreement on the four compared attributes, as a proposition. -/
def sameKey (c d : comp) : Prop :=
  c.value = d.value ∧ c.partName = d.partName ∧ c.footprint = d.footprint ∧ c.dnp = d.dnp

/-- Modelled from the spec: `netlist.groupComponents` lives in the external
`kicad_netlist_reader` library, not in this repository.  Per the spec it
partitions the interesting components into groups of equivalent components,
the equivalence having been overridden to `myEqu` before the netlist is
loaded.  A component joins the first existing group whose first member it is
equivalent to, otherwise it opens a new group at the end. -/
def insertGrouped (c : comp) : List (List comp) → List (List comp)
  | [] => [[c]]
  | g :: gs => if myEqu g.headI c then (g ++ [c]) :: gs else g :: insertGrouped c gs

/-- Modelled from the spec: the grouping pass over the whole component list. -/
def groupComponents (cs : List comp) : List (List comp) :=
  cs.foldl (fun gs c => insertGrouped c gs) []

/-- Invariant of the grouping accumulator: groups are non-empty, every member
of a group shares the key of the group's first member, and distinct groups
carry distinct keys. -/
def GroupsWF (gs : List (List comp)) : Prop :=
  (∀ g ∈ gs, g ≠ []) ∧ (∀ g ∈ gs, ∀ x ∈ g, sameKey g.headI x) ∧
    gs.Pairwise (fun g g2 => ¬ sameKey g.headI g2.headI)

/-- Value of a digit string, most significant first. -/
def digitsVal (l : List Char) : Nat :=
  l.foldl (fun a c => 10 * a + (c.toNat - Char.toNat '0')) 0

/-- ASCII whitespace as Python's `str.strip` removes it. -/
def pySpace (c : Char) : Bool :=
  c = ' ' || c = '\t' || c = '\n' || c = '\r' || c = '\x0b' || c = '\x0c'

/-- Surrounding whitespace stripped, as `int(...)` tolerates it. -/
def pyStrip (l : List Char) : List Char :=
  ((l.dropWhile pySpace).reverse.dropWhile pySpace).reverse

/-- Python's `int(...)` on a string, as the script applies it to field values:
optional surrounding whitespace, an optional sign, then decimal digits;
anything else raises `ValueError`, modelled as `none`.  (Digit-group
underscores and non-ASCII digits are not modelled.) -/
def pyParseInt (s : String) : Option Int :=
  match pyStrip s.toList with
  | [] => none
  | '+' :: rest =>
      if rest ≠ [] ∧ rest.all Char.isDigit then some (digitsVal rest) else none
  | '-' :: rest =>
      if rest ≠ [] ∧ rest.all Char.isDigit then some (-(digitsVal rest : Int)) else none
  | l => if l.all Char.isDigit then some (digitsVal l) else none

/-- First binding of `name` in an association list of fields. -/
def lookupField (fields : List (String × String)) (name : String) : Option String :=
  (fields.find? (fun p => p.1 == name)).map (fun p => p.2)

/-- Modelled from the spec: `netlist.getGroupField` lives in the external
reader.  Per the spec, "a group's displayed fields are taken from the field
union of its first member (or the library part defaults)"; a field present
nowhere reads as the empty string.  `lib` holds the library-part defaults. -/
def getGroupField (lib : List (String × String)) (g : List comp) (f : String) : String :=
  match g with
  | [] => ""
  | c :: _ =>
    match lookupField c.fields f with
    | some v => v
    | none =>
      match lookupField lib f with
      | some v => v
      | none => ""

/-- The `try: per = int(net.getGroupField(group, "Qty/Unit")) except ValueError:
per = 1` pattern shared by both emission loops (lines 119–122 and 148–151). -/
def perOf (lib : List (String × String)) (g : List comp) : Int :=
  match pyParseInt (getGroupField lib g "Qty/Unit") with
  | some n => n
  | none => 1

/-- Lines 124 and 152: `(len(group) * int(sys.argv[3])) // per + (1 if
len(group) % per else 0)`.  Python `//` and `%` are floored division and
remainder, i.e. `Int.fdiv` and `Int.fmod`; when `per` is zero both raise
`ZeroDivisionError`, modelled as `none`. -/
def unitsExpr (count : Nat) (boards per : Int) : Option Int :=
  if per = 0 then none
  else some (Int.fdiv ((count : Int) * boards) per +
    (if Int.fmod (count : Int) per ≠ 0 then 1 else 0))

/-- Follows the spec's words, for comparison with `unitsExpr`: the required
order quantity is `ceil(group_size * board_count / qty_per_unit)`; for a
positive divisor the ceiling of `a / b` is `-((-a) // b)` in floored
arithmetic. -/
def specCeilUnits (count : Nat) (boards per : Int) : Int :=
  -(Int.fdiv (-((count : Int) * boards)) per)

/-- Header row of the aggregate BOM file (line 114). -/
def aggHeader : List String :=
  ["Component", "Qty per Unit", "Units", "Cost/Unit", "Link", "Part Number"]

/-- Header row of each supplier order file (line 143). -/
def orderHeader : List String := ["Component", "Order Qty", "Part Number", "Link"]

/-- One iteration of the aggregate loop (lines 116–131): pretty name, qty per
unit, Units, cost, and — when "Order From" is non-empty — the supplier's Link
and P/N columns appended.  `none` when the Units expression raises.  The
script's `writerow` passes every column through `str`, so a row is a list of
strings. -/
def aggRow (lib : List (String × String)) (boards : Int) (g : List comp) :
    Option (List String) :=
  let per := perOf lib g
  match unitsExpr g.length boards per with
  | none => none
  | some u =>
    let base := [getGroupField lib g "Pretty Name", toString per, toString u,
      getGroupField lib g "Cost/Unit"]
    let src := getGroupField lib g "Order From"
    some (if src != "" then
        base ++ [getGroupField lib g (src ++ " Link"), getGroupField lib g (src ++ " P/N")]
      else base)

/-- The same row when the Units expression does not raise. -/
def unitsVal (lib : List (String × String)) (boards : Int) (g : List comp) : Int :=
  Int.fdiv ((g.length : Int) * boards) (perOf lib g) +
    (if Int.fmod (g.length : Int) (perOf lib g) ≠ 0 then 1 else 0)

/-- Total version of `aggRow`, its value whenever `perOf` is non-zero. -/
def aggRowVal (lib : List (String × String)) (boards : Int) (g : List comp) :
    List String :=
  let base := [getGroupField lib g "Pretty Name", toString (perOf lib g),
    toString (unitsVal lib boards g), getGroupField lib g "Cost/Unit"]
  let src := getGroupField lib g "Order From"
  if src != "" then
    base ++ [getGroupField lib g (src ++ " Link"), getGroupField lib g (src ++ " P/N")]
  else base

/-- The `suppliers_in_use` set accumulated during the aggregate loop (lines
112 and 126–128): every non-empty "Order From" value of a group.  Python set
iteration order is unspecified; the model keeps the values as a
duplicate-free list. -/
def suppliersInUse (lib : List (String × String)) (groups : List (List comp)) :
    List String :=
  ((groups.map (fun g => getGroupField lib g "Order From")).filter
    (fun s => s != "")).dedup

/-- One iteration of a supplier loop body (lines 146–155): pretty name, the
order quantity (same expression as Units), then the supplier's P/N and Link. -/
def orderRow (lib : List (String × String)) (boards : Int) (supplier : String)
    (g : List comp) : Option (List String) :=
  let per := perOf lib g
  match unitsExpr g.length boards per with
  | none => none
  | some u =>
    some [getGroupField lib g "Pretty Name", toString u,
      getGroupField lib g (supplier ++ " P/N"), getGroupField lib g (supplier ++ " Link")]

/-- Total version of `orderRow`, its value whenever `perOf` is non-zero. -/
def orderRowVal (lib : List (String × String)) (boards : Int) (supplier : String)
    (g : List comp) : List String :=
  [getGroupField lib g "Pretty Name", toString (unitsVal lib boards g),
    getGroupField lib g (supplier ++ " P/N"), getGroupField lib g (supplier ++ " Link")]

/-- Sequencing of a row-producing loop: the first raised exception aborts the
whole run, so a failing row makes the whole output `none`. -/
def mapOpt (f : α → Option β) : List α → Option (List β)
  | [] => some []
  | a :: as =>
    match f a with
    | none => none
    | some b => (mapOpt f as).map (fun bs => b :: bs)

/-- Rows of one supplier order file (lines 143–155): the header, then a row
for exactly the groups whose "Order From" equals the supplier. -/
def orderFileRows (lib : List (String × String)) (boards : Int) (supplier : String)
    (groups : List (List comp)) : Option (List (List String)) :=
  (mapOpt (orderRow lib boards supplier)
    (groups.filter (fun g => getGroupField lib g "Order From" == supplier))).map
    (fun rs => orderHeader :: rs)

/-- Total version of `orderFileRows`. -/
def orderFileRowsVal (lib : List (String × String)) (boards : Int) (supplier : String)
    (groups : List (List comp)) : List (List String) :=
  orderHeader ::
    (groups.filter (fun g => getGroupField lib g "Order From" == supplier)).map
      (orderRowVal lib boards supplier)

/-- Where an output stream ends up: the intended file, or the standard-output
fallback taken when `open` raises `IOError`. -/
inductive Dest where
  | file (path : String)
  | stdout
deriving DecidableEq, Repr

/-- One produced output: the path the script tried to open, the stream the
rows actually went to, and the rows themselves. -/
structure Output where
  path : String
  dest : Dest
  rows : List (List String)
deriving DecidableEq, Repr

/-- The `try: open ... except IOError: ... = sys.stdout` pattern (lines
102–107 and 136–141), with `canOpen` the file-system oracle saying whether
opening a path for writing succeeds. -/
def destFor (canOpen : String → Bool) (path : String) : Dest :=
  if canOpen path then Dest.file path else Dest.stdout

/-- Paths and rows of the supplier order files, one per supplier in use. -/
def orderOutputsCore (lib : List (String × String)) (boards : Int) (stem : String)
    (groups : List (List comp)) : Option (List (String × List (List String))) :=
  mapOpt (fun s => (orderFileRows lib boards s groups).map
      (fun rs => (stem ++ "_" ++ s ++ "-order.csv", rs)))
    (suppliersInUse lib groups)

/-- Content view of the script's output phase (lines 102–156): the aggregate
BOM file, then one order file per supplier in use, each with its per-path
fallback destination.  `outArg` is `sys.argv[2]`, whose last four characters
(".csv") the script slices off to make the stem.  A `none` result models an
unhandled exception aborting the run (partial output already written before
the crash is not modelled).  This view does not track the `close()` of each
stream at lines 133 and 156 — in the script, closing a `sys.stdout` fallback
makes any later fallback raise — so it describes runs in which at most one
open fails; `runOutputsClosing` below models the closes as well. -/
def runOutputs (canOpen : String → Bool) (lib : List (String × String))
    (outArg : String) (boards : Int) (groups : List (List comp)) :
    Option (List Output) :=
  let stem := outArg.dropRight 4
  match mapOpt (aggRow lib boards) groups with
  | none => none
  | some aggRows =>
    match orderOutputsCore lib boards stem groups with
    | none => none
    | some ords =>
      some (⟨stem ++ "_BOM.csv", destFor canOpen (stem ++ "_BOM.csv"),
          aggHeader :: aggRows⟩ ::
        ords.map (fun pr => ⟨pr.1, destFor canOpen pr.1, pr.2⟩))

/-- Total version of `runOutputs`, its value whenever every group's `perOf`
is non-zero. -/
def runOutputsVal (canOpen : String → Bool) (lib : List (String × String))
    (outArg : String) (boards : Int) (groups : List (List comp)) : List Output :=
  let stem := outArg.dropRight 4
  ⟨stem ++ "_BOM.csv", destFor canOpen (stem ++ "_BOM.csv"),
      aggHeader :: groups.map (aggRowVal lib boards)⟩ ::
    (suppliersInUse lib groups).map (fun s =>
      ⟨stem ++ "_" ++ s ++ "-order.csv", destFor canOpen (stem ++ "_" ++ s ++ "-order.csv"),
        orderFileRowsVal lib boards s groups⟩)

/-- Trace of the output phase with stream closes tracked: the outputs fully
produced before any crash, and the uncaught exception if one aborted the
run. -/
structure RunTrace where
  outputs : List Output
  err : Option String
deriving DecidableEq, Repr

/-- Supplier-file loop of lines 135–156 with the `close()` of line 156
tracked.  `stdoutClosed` records that an earlier output fell back to
`sys.stdout` and that stream has since been closed; a failed open then
aborts, because the handler's own `print` (line 140, which goes to stdout —
`sys.stderr` is passed positionally, not as `file=`) and the subsequent
`writerow` hit the closed stream, raising an uncaught `ValueError`. -/
def orderOutputsClosing (canOpen : String → Bool) (lib : List (String × String))
    (boards : Int) (stem : String) (groups : List (List comp)) :
    Bool → List String → RunTrace
  | _, [] => ⟨[], none⟩
  | stdoutClosed, s :: rest =>
    let p := stem ++ "_" ++ s ++ "-order.csv"
    if canOpen p then
      match orderFileRows lib boards s groups with
      | none => ⟨[], some "ZeroDivisionError"⟩
      | some rs =>
        let t := orderOutputsClosing canOpen lib boards stem groups stdoutClosed rest
        ⟨⟨p, Dest.file p, rs⟩ :: t.outputs, t.err⟩
    else if stdoutClosed then ⟨[], some "ValueError"⟩
    else
      match orderFileRows lib boards s groups with
      | none => ⟨[], some "ZeroDivisionError"⟩
      | some rs =>
        let t := orderOutputsClosing canOpen lib boards stem groups true rest
        ⟨⟨p, Dest.stdout, rs⟩ :: t.outputs, t.err⟩

/-- The output phase of lines 102–156 with the stream `close()` of lines 133
and 156 modelled: when the aggregate BOM fell back to standard output, line
133 closes `sys.stdout`, and every later fallback aborts the run.  (As in
`runOutputs`, a file interrupted by `ZeroDivisionError` is collapsed to an
aborted trace rather than a partial file.) -/
def runOutputsClosing (canOpen : String → Bool) (lib : List (String × String))
    (outArg : String) (boards : Int) (groups : List (List comp)) : RunTrace :=
  let stem := outArg.dropRight 4
  let aggPath := stem ++ "_BOM.csv"
  match mapOpt (aggRow lib boards) groups with
  | none => ⟨[], some "ZeroDivisionError"⟩
  | some aggRows =>
    let t := orderOutputsClosing canOpen lib boards stem groups (!canOpen aggPath)
      (suppliersInUse lib groups)
    ⟨⟨aggPath, destFor canOpen aggPath, aggHeader :: aggRows⟩ :: t.outputs, t.err⟩

/-- Outcome of a run of the script: a normal `sys.exit`-style termination with
an exit code, the lines printed to stderr and the outputs produced, or an
unhandled Python exception. -/
inductive PyOutcome where
  | exited (code : Nat) (stderrLines : List String) (outputs : List Output)
  | raised (err : String)
deriving DecidableEq, Repr

/-- Line 70's message: `print("Usage ", __file__, "<generic_netlist.xml>
<output.csv> <QTY>", file=sys.stderr)`, with `print`'s single-space
separator. -/
def usageLine (script : String) : String :=
  "Usage  " ++ script ++ " <generic_netlist.xml> <output.csv> <QTY>"

/-- The script end to end.  `components` stands for what the external reader
parses from `sys.argv[1]` and filters to the interesting components; loading
failures of that external step are not modelled.  The board count
`int(sys.argv[3])` is parsed up front here, although the script evaluates it
inside each loop iteration. -/
def mainModel (canOpen : String → Bool) (lib : List (String × String))
    (components : List comp) (argv : List String) : PyOutcome :=
  if argv.length != 4 then PyOutcome.exited 1 [usageLine (argv.headD "")] []
  else
    match pyParseInt (argv.getD 3 "") with
    | none => PyOutcome.raised "ValueError"
    | some boards =>
      match runOutputs canOpen lib (argv.getD 2 "") boards (groupComponents components) with
      | none => PyOutcome.raised "ZeroDivisionError"
      | some outs => PyOutcome.exited 0 [] outs

/-- Quote-escaping of Python's `csv` writer: an embedded quote character is
doubled. -/
def escQuote : List Char → List Char
  | [] => []
  | c :: cs => if c = '"' then '"' :: '"' :: escQuote cs else c :: escQuote cs

/-- One field as the script's writer emits it (`quoting=csv.QUOTE_ALL`,
`quotechar='"'`): wrapped in double quotes regardless of content. -/
def csvQuote (f : String) : String :=
  String.mk ('"' :: (escQuote f.toList ++ ['"']))

/-- One record as the script's writer emits it (lines 110 and 142): every
field quoted, comma delimiter, newline line terminator. -/
def csvLine : List String → String
  | [] => "\n"
  | [f] => csvQuote f ++ "\n"
  | f :: fs => csvQuote f ++ "," ++ csvLine fs

/-- Read the rest of a fully quoted record, the opening quote of the current
field already consumed: `cur` is the current field reversed, `acc` the
finished fields reversed.  A doubled quote is a literal quote; a closing
quote followed by a comma and an opening quote ends the field; a closing
quote followed by the final newline ends the record. -/
def parseFieldsAux : List Char → List Char → List String → Option (List String)
  | [], _, _ => none
  | c :: rest, cur, acc =>
    if c = '"' then
      match rest with
      | '"' :: rest2 => parseFieldsAux rest2 ('"' :: cur) acc
      | ',' :: rest2 =>
        match rest2 with
        | '"' :: rest3 => parseFieldsAux rest3 [] (String.mk cur.reverse :: acc)
        | _ => none
      | ['\n'] => some ((String.mk cur.reverse :: acc).reverse)
      | _ => none
    else parseFieldsAux rest (c :: cur) acc

/-- Parse one fully quoted CSV record back into its fields: an inverse of
`csvLine` on non-empty rows, witnessing that the quoting preserves every
field — commas included — exactly. -/
def parseCsvLine (s : String) : Option (List String) :=
  match s.toList with
  | c :: rest => if c = '"' then parseFieldsAux rest [] [] else none
  | [] => none

/-- Character stream of a quoted record after its opening quote; relates
`csvLine` to `parseFieldsAux`. -/
def recTail : List String → List Char
  | [] => ['\n']
  | [f] => escQuote f.toList ++ ['"', '\n']
  | f :: fs => escQuote f.toList ++ ('"' :: ',' :: '"' :: recTail fs)

/-- File-system oracle under which every open for writing succeeds. -/
def alwaysOpen : String → Bool := fun _ => true

/-- File-system oracle under which every open for writing raises `IOError`. -/
def neverOpen : String → Bool := fun _ => false

/-- File-system oracle that fails exactly one path. -/
def failsOnly (bad : String) : String → Bool := fun p => p != bad

/-!
## Theorems
-/

theorem myEqu_iff (c d : comp) : myEqu c d = true ↔ sameKey c d := by
  by_cases h1 : c.value = d.value <;> by_cases h2 : c.partName = d.partName <;>
    by_cases h3 : c.footprint = d.footprint <;> by_cases h4 : c.dnp = d.dnp <;>
    simp [myEqu, sameKey, bne_iff_ne, h1, h2, h3, h4]

theorem sameKey_refl (c : comp) : sameKey c c := ⟨rfl, rfl, rfl, rfl⟩

theorem sameKey_symm {c d : comp} (h : sameKey c d) : sameKey d c :=
  ⟨h.1.symm, h.2.1.symm, h.2.2.1.symm, h.2.2.2.symm⟩

theorem sameKey_trans {c d e : comp} (h : sameKey c d) (h2 : sameKey d e) : sameKey c e :=
  ⟨h.1.trans h2.1, h.2.1.trans h2.2.1, h.2.2.1.trans h2.2.2.1, h.2.2.2.trans h2.2.2.2⟩

theorem mapOpt_eq_map {α β : Type} {f : α → Option β} {g : α → β} :
    ∀ {l : List α}, (∀ a ∈ l, f a = some (g a)) → mapOpt f l = some (l.map g) := by
  intro l
  induction l with
  | nil => intro _; rfl
  | cons a as ih =>
    intro h
    have ha := h a (List.mem_cons_self a as)
    simp [mapOpt, ha, ih (fun x hx => h x (List.mem_cons_of_mem a hx))]

theorem mapOpt_eq_none {α β : Type} {f : α → Option β} {l : List α} {a : α}
    (ha : a ∈ l) (hf : f a = none) : mapOpt f l = none := by
  induction l with
  | nil => cases ha
  | cons b bs ih =>
    rcases List.mem_cons.mp ha with rfl | hmem
    · simp [mapOpt, hf]
    · cases hb : f b with
      | none => simp [mapOpt, hb]
      | some v => simp [mapOpt, hb, ih hmem]

theorem mem_of_mapOpt {α β : Type} {f : α → Option β} :
    ∀ {l : List α} {bs : List β}, mapOpt f l = some bs → ∀ b ∈ bs, ∃ a ∈ l, f a = some b := by
  intro l
  induction l with
  | nil =>
    intro bs h b hb
    simp [mapOpt] at h
    subst h
    cases hb
  | cons a as ih =>
    intro bs h b hb
    cases hfa : f a with
    | none => simp [mapOpt, hfa] at h
    | some v =>
      simp only [mapOpt, hfa] at h
      cases hrest : mapOpt f as with
      | none => rw [hrest] at h; cases h
      | some vs =>
        rw [hrest] at h
        simp only [Option.map_some', Option.some_inj] at h
        subst h
        rcases List.mem_cons.mp hb with rfl | hmem
        · exact ⟨a, List.mem_cons_self a as, hfa⟩
        · obtain ⟨a2, ha2, hfa2⟩ := ih hrest b hmem
          exact ⟨a2, List.mem_cons_of_mem a ha2, hfa2⟩

theorem unitsExpr_of_ne {lib : List (String × String)} {g : List comp} (b : Int)
    (h : perOf lib g ≠ 0) :
    unitsExpr g.length b (perOf lib g) = some (unitsVal lib b g) := by
  simp [unitsExpr, unitsVal, h]

theorem aggRow_of_ne {lib : List (String × String)} {g : List comp} (b : Int)
    (h : perOf lib g ≠ 0) : aggRow lib b g = some (aggRowVal lib b g) := by
  simp only [aggRow, aggRowVal, unitsExpr_of_ne b h]

theorem orderRow_of_ne {lib : List (String × String)} {g : List comp} (b : Int)
    (s : String) (h : perOf lib g ≠ 0) :
    orderRow lib b s g = some (orderRowVal lib b s g) := by
  simp only [orderRow, orderRowVal, unitsExpr_of_ne b h]

theorem orderFileRows_of_ne {lib : List (String × String)} {groups : List (List comp)}
    (b : Int) (s : String) (h : ∀ g ∈ groups, perOf lib g ≠ 0) :
    orderFileRows lib b s groups = some (orderFileRowsVal lib b s groups) := by
  unfold orderFileRows orderFileRowsVal
  rw [mapOpt_eq_map (g := orderRowVal lib b s)]
  · rfl
  · intro g hg
    exact orderRow_of_ne b s (h g (List.mem_filter.mp hg).1)

theorem orderOutputsCore_of_ne {lib : List (String × String)} {groups : List (List comp)}
    (b : Int) (stem : String) (h : ∀ g ∈ groups, perOf lib g ≠ 0) :
    orderOutputsCore lib b stem groups =
      some ((suppliersInUse lib groups).map
        (fun s => (stem ++ "_" ++ s ++ "-order.csv", orderFileRowsVal lib b s groups))) := by
  unfold orderOutputsCore
  rw [mapOpt_eq_map
    (g := fun s => (stem ++ "_" ++ s ++ "-order.csv", orderFileRowsVal lib b s groups))]
  intro s _
  rw [orderFileRows_of_ne b s h]
  rfl

theorem runOutputs_of_ne {lib : List (String × String)} {groups : List (List comp)}
    (canOpen : String → Bool) (outArg : String) (b : Int)
    (h : ∀ g ∈ groups, perOf lib g ≠ 0) :
    runOutputs canOpen lib outArg b groups =
      some (runOutputsVal canOpen lib outArg b groups) := by
  unfold runOutputs runOutputsVal
  simp only [mapOpt_eq_map (g := aggRowVal lib b) (fun g hg => aggRow_of_ne b (h g hg)),
    orderOutputsCore_of_ne b (outArg.dropRight 4) h, List.map_map]
  try rfl

/-- **C1**: the claim says the Units value equals
`ceil(len(group) * boards / per)`.  It does not: the code's remainder test
uses `len(group) % per` instead of `(len(group) * boards) % per`, so for a
group of one component, board count 2 and Qty/Unit 2 the script writes
Units = 2 while the ceiling of 2/2 is 1.  The code path is evaluated in
full: the field "2" parses to `per = 2`, and the emitted aggregate row
carries "2" in its Units column. -/
theorem units_formula_not_ceiling :
    perOf [] [⟨"", "", "", false, [("Qty/Unit", "2")]⟩] = 2 ∧
    unitsExpr 1 2 2 = some 2 ∧
    aggRow [] 2 [⟨"", "", "", false, [("Qty/Unit", "2")]⟩] = some ["", "2", "2", ""] ∧
    specCeilUnits 1 2 2 = 1 ∧ (2 : Int) ≠ 1 := by
  refine ⟨by rfl, by rfl, by rfl, by rfl, by decide⟩

/-- **C5**: when a group's "Qty/Unit" field parses as the integer 0, the
soft default of 1 is not applied — `per` becomes 0 — and the Units
expression divides by zero, so the row raises and the whole output run
fails with an unhandled error. -/
theorem zero_qty_per_unit_raises (canOpen : String → Bool)
    (lib : List (String × String)) (outArg : String) (b : Int)
    (groups : List (List comp)) (g : List comp) (hg : g ∈ groups)
    (h : pyParseInt (getGroupField lib g "Qty/Unit") = some 0) :
    perOf lib g = 0 ∧ aggRow lib b g = none ∧
      runOutputs canOpen lib outArg b groups = none := by
  have hper : perOf lib g = 0 := by simp [perOf, h]
  have hrow : aggRow lib b g = none := by simp [aggRow, hper, unitsExpr]
  refine ⟨hper, hrow, ?_⟩
  unfold runOutputs
  simp [mapOpt_eq_none hg hrow]

/-- Witness for `zero_qty_per_unit_raises` at a concrete netlist: one group
of one component whose "Qty/Unit" field is the string "0". -/
theorem zero_qty_per_unit_raises_witness :
    pyParseInt (getGroupField [] [⟨"", "", "", false, [("Qty/Unit", "0")]⟩] "Qty/Unit") =
        some 0 ∧
      perOf [] [⟨"", "", "", false, [("Qty/Unit", "0")]⟩] = 0 ∧
      aggRow [] 1 [⟨"", "", "", false, [("Qty/Unit", "0")]⟩] = none ∧
      runOutputs alwaysOpen [] "out.csv" 1 [[⟨"", "", "", false, [("Qty/Unit", "0")]⟩]] =
        none :=
  ⟨by rfl, zero_qty_per_unit_raises alwaysOpen [] "out.csv" 1 _ _
    (List.mem_singleton.mpr rfl) (by rfl)⟩

/-- **C6**: a "Qty/Unit" field that is missing or does not parse as an
integer makes `per` the soft default 1 and raises no error: the row is still
produced, with Units `len(group) * boards`.  The last conjunct records that
a missing field reads as the empty string, which indeed fails to parse. -/
theorem nonnumeric_qty_per_unit_defaults (lib : List (String × String)) (b : Int)
    (g : List comp)
    (h : pyParseInt (getGroupField lib g "Qty/Unit") = none) :
    perOf lib g = 1 ∧
      unitsExpr g.length b (perOf lib g) = some ((g.length : Int) * b) ∧
      aggRow lib b g = some (aggRowVal lib b g) ∧
      pyParseInt "" = none := by
  have hper : perOf lib g = 1 := by simp [perOf, h]
  have hne : perOf lib g ≠ 0 := by rw [hper]; decide
  refine ⟨hper, ?_, aggRow_of_ne b hne, rfl⟩
  rw [hper]
  simp [unitsExpr]

/-- Witness for `nonnumeric_qty_per_unit_defaults`: a component whose
"Qty/Unit" field holds the non-numeric string "N/A". -/
theorem nonnumeric_qty_per_unit_defaults_witness :
    pyParseInt (getGroupField [] [⟨"", "", "", false, [("Qty/Unit", "N/A")]⟩] "Qty/Unit") =
        none ∧
      perOf [] [⟨"", "", "", false, [("Qty/Unit", "N/A")]⟩] = 1 ∧
      unitsExpr 1 3 (perOf [] [⟨"", "", "", false, [("Qty/Unit", "N/A")]⟩]) = some 3 ∧
      aggRow [] 3 [⟨"", "", "", false, [("Qty/Unit", "N/A")]⟩] =
        some (aggRowVal [] 3 [⟨"", "", "", false, [("Qty/Unit", "N/A")]⟩]) ∧
      pyParseInt "" = none := by
  have h := nonnumeric_qty_per_unit_defaults [] 3
    [⟨"", "", "", false, [("Qty/Unit", "N/A")]⟩] (by rfl)
  exact ⟨by rfl, h.1, h.2.1, h.2.2.1, h.2.2.2⟩

/-- **C8**: invoked with an argument count other than four, the script
prints the usage line to stderr, exits with status 1, and produces no
output files. -/
theorem wrong_arg_count_exits_usage (canOpen : String → Bool)
    (lib : List (String × String)) (components : List comp)
    (argv : List String) (h : argv.length ≠ 4) :
    mainModel canOpen lib components argv =
      PyOutcome.exited 1 [usageLine (argv.headD "")] [] := by
  simp [mainModel, h]

/-- Witness for `wrong_arg_count_exits_usage`: two command-line arguments. -/
theorem wrong_arg_count_exits_usage_witness :
    mainModel alwaysOpen [] [] ["bom_bfr_format.py", "netlist.xml"] =
      PyOutcome.exited 1 [usageLine "bom_bfr_format.py"] [] :=
  wrong_arg_count_exits_usage alwaysOpen [] [] ["bom_bfr_format.py", "netlist.xml"]
    (by decide)

theorem orderOutputsClosing_completes {canOpen : String → Bool}
    {lib : List (String × String)} {groups : List (List comp)} (b : Int)
    (stem : String) (h : ∀ g ∈ groups, perOf lib g ≠ 0) :
    ∀ (sups : List String) (sc : Bool),
      sups.countP (fun s => !canOpen (stem ++ "_" ++ s ++ "-order.csv")) ≤
          (if sc then 0 else 1) →
      orderOutputsClosing canOpen lib b stem groups sc sups =
        ⟨sups.map (fun s => ⟨stem ++ "_" ++ s ++ "-order.csv",
          destFor canOpen (stem ++ "_" ++ s ++ "-order.csv"),
          orderFileRowsVal lib b s groups⟩), none⟩ := by
  intro sups
  induction sups with
  | nil => intro sc _; rfl
  | cons s rest ih =>
    intro sc hc
    simp only [List.countP_cons] at hc
    cases hop : canOpen (stem ++ "_" ++ s ++ "-order.csv") with
    | true =>
      rw [hop] at hc
      have hc2 : rest.countP (fun s => !canOpen (stem ++ "_" ++ s ++ "-order.csv")) ≤
          (if sc then 0 else 1) := by
        have hc3 : rest.countP (fun s => !canOpen (stem ++ "_" ++ s ++ "-order.csv")) + 0 ≤
            (if sc then 0 else 1) := hc
        omega
      simp only [orderOutputsClosing, hop, if_pos, orderFileRows_of_ne b s h,
        ih sc hc2]
      simp [destFor, hop]
    | false =>
      rw [hop] at hc
      have hc3 : rest.countP (fun s => !canOpen (stem ++ "_" ++ s ++ "-order.csv")) + 1 ≤
          (if sc then 0 else 1) := hc
      cases sc with
      | true =>
        exfalso
        have hc4 : rest.countP (fun s => !canOpen (stem ++ "_" ++ s ++ "-order.csv")) + 1 ≤
            0 := hc3
        omega
      | false =>
        have hc2 : rest.countP (fun s => !canOpen (stem ++ "_" ++ s ++ "-order.csv")) ≤ 0 := by
          have hc4 : rest.countP (fun s => !canOpen (stem ++ "_" ++ s ++ "-order.csv")) + 1 ≤
              1 := hc3
          omega
        simp only [orderOutputsClosing, hop, orderFileRows_of_ne b s h, ih true hc2]
        simp [destFor, hop]

theorem orderOutputsClosing_aborts {canOpen : String → Bool}
    {lib : List (String × String)} {groups : List (List comp)} (b : Int)
    (stem : String) (h : ∀ g ∈ groups, perOf lib g ≠ 0) :
    ∀ (sups : List String),
      (∃ s ∈ sups, canOpen (stem ++ "_" ++ s ++ "-order.csv") = false) →
      (orderOutputsClosing canOpen lib b stem groups true sups).err =
        some "ValueError" := by
  intro sups
  induction sups with
  | nil => rintro ⟨s, hs, _⟩; cases hs
  | cons s rest ih =>
    rintro ⟨t, ht, hfail⟩
    cases hop : canOpen (stem ++ "_" ++ s ++ "-order.csv") with
    | false => simp [orderOutputsClosing, hop]
    | true =>
      rcases List.mem_cons.mp ht with rfl | hrest
      · rw [hop] at hfail; cases hfail
      · simp only [orderOutputsClosing, hop, if_pos, orderFileRows_of_ne b s h]
        exact ih ⟨t, hrest, hfail⟩

theorem orderOutputsClosing_aborts2 {canOpen : String → Bool}
    {lib : List (String × String)} {groups : List (List comp)} (b : Int)
    (stem : String) (h : ∀ g ∈ groups, perOf lib g ≠ 0) :
    ∀ (sups : List String),
      2 ≤ sups.countP (fun s => !canOpen (stem ++ "_" ++ s ++ "-order.csv")) →
      (orderOutputsClosing canOpen lib b stem groups false sups).err =
        some "ValueError" := by
  intro sups
  induction sups with
  | nil => intro hc; simp [List.countP_nil] at hc
  | cons s rest ih =>
    intro hc
    simp only [List.countP_cons] at hc
    cases hop : canOpen (stem ++ "_" ++ s ++ "-order.csv") with
    | true =>
      rw [hop] at hc
      have hc2 : 2 ≤ rest.countP (fun s => !canOpen (stem ++ "_" ++ s ++ "-order.csv")) := by
        have hc3 : 2 ≤ rest.countP (fun s => !canOpen (stem ++ "_" ++ s ++ "-order.csv")) + 0 :=
          hc
        omega
      simp only [orderOutputsClosing, hop, if_pos, orderFileRows_of_ne b s h]
      exact ih hc2
    | false =>
      rw [hop] at hc
      have hpos : 0 < rest.countP (fun s => !canOpen (stem ++ "_" ++ s ++ "-order.csv")) := by
        have hc3 : 2 ≤ rest.countP (fun s => !canOpen (stem ++ "_" ++ s ++ "-order.csv")) + 1 :=
          hc
        omega
      obtain ⟨t, ht, hpt⟩ := List.countP_pos_iff.mp hpos
      have hfail : canOpen (stem ++ "_" ++ t ++ "-order.csv") = false := by
        simpa using hpt
      simp only [orderOutputsClosing, hop, orderFileRows_of_ne b s h]
      exact orderOutputsClosing_aborts b stem h rest ⟨t, ht, hfail⟩

/-- **C7** (amended): an output-file open failure falls back to standard
output without aborting only while `sys.stdout` is still open.  Since the
script closes each stream — the stdout fallback included (lines 133/156) —
the run completes, with every output's rows intact and the unopenable one on
standard output, exactly when at most one of the output paths is unopenable;
with two or more unopenable paths the first fallback closes stdout and the
next failed open aborts the run with an uncaught `ValueError`. -/
theorem open_failure_fallback_amended (canOpen : String → Bool)
    (lib : List (String × String)) (outArg : String) (b : Int)
    (groups : List (List comp)) (h : ∀ g ∈ groups, perOf lib g ≠ 0) :
    (((outArg.dropRight 4 ++ "_BOM.csv") ::
        (suppliersInUse lib groups).map
          (fun s => outArg.dropRight 4 ++ "_" ++ s ++ "-order.csv")).countP
          (fun p => !canOpen p) ≤ 1 →
      runOutputsClosing canOpen lib outArg b groups =
        ⟨runOutputsVal canOpen lib outArg b groups, none⟩) ∧
    (2 ≤ ((outArg.dropRight 4 ++ "_BOM.csv") ::
        (suppliersInUse lib groups).map
          (fun s => outArg.dropRight 4 ++ "_" ++ s ++ "-order.csv")).countP
          (fun p => !canOpen p) →
      (runOutputsClosing canOpen lib outArg b groups).err = some "ValueError") := by
  have hrows : mapOpt (aggRow lib b) groups = some (groups.map (aggRowVal lib b)) :=
    mapOpt_eq_map (fun g hg => aggRow_of_ne b (h g hg))
  constructor
  · intro hc
    simp only [List.countP_cons, List.countP_map, Function.comp] at hc
    simp only [runOutputsClosing, hrows]
    cases hagg : canOpen (outArg.dropRight 4 ++ "_BOM.csv") with
    | true =>
      rw [hagg] at hc
      have hc2 : (suppliersInUse lib groups).countP
          (fun s => !canOpen (outArg.dropRight 4 ++ "_" ++ s ++ "-order.csv")) ≤ 1 := by
        have hc3 : (suppliersInUse lib groups).countP
            (fun s => !canOpen (outArg.dropRight 4 ++ "_" ++ s ++ "-order.csv")) + 0 ≤ 1 := hc
        omega
      simp only [Bool.not_true]
      rw [orderOutputsClosing_completes b (outArg.dropRight 4) h
        (suppliersInUse lib groups) false hc2]
      rfl
    | false =>
      rw [hagg] at hc
      have hc2 : (suppliersInUse lib groups).countP
          (fun s => !canOpen (outArg.dropRight 4 ++ "_" ++ s ++ "-order.csv")) ≤ 0 := by
        have hc3 : (suppliersInUse lib groups).countP
            (fun s => !canOpen (outArg.dropRight 4 ++ "_" ++ s ++ "-order.csv")) + 1 ≤ 1 := hc
        omega
      simp only [Bool.not_false]
      rw [orderOutputsClosing_completes b (outArg.dropRight 4) h
        (suppliersInUse lib groups) true hc2]
      rfl
  · intro hc
    simp only [List.countP_cons, List.countP_map, Function.comp] at hc
    simp only [runOutputsClosing, hrows]
    cases hagg : canOpen (outArg.dropRight 4 ++ "_BOM.csv") with
    | false =>
      rw [hagg] at hc
      have hpos : 0 < (suppliersInUse lib groups).countP
          (fun s => !canOpen (outArg.dropRight 4 ++ "_" ++ s ++ "-order.csv")) := by
        have hc3 : 2 ≤ (suppliersInUse lib groups).countP
            (fun s => !canOpen (outArg.dropRight 4 ++ "_" ++ s ++ "-order.csv")) + 1 := hc
        omega
      obtain ⟨t, ht, hpt⟩ := List.countP_pos_iff.mp hpos
      have hfail : canOpen (outArg.dropRight 4 ++ "_" ++ t ++ "-order.csv") = false := by
        simpa using hpt
      simp only [Bool.not_false]
      exact orderOutputsClosing_aborts b (outArg.dropRight 4) h
        (suppliersInUse lib groups) ⟨t, ht, hfail⟩
    | true =>
      rw [hagg] at hc
      have hc2 : 2 ≤ (suppliersInUse lib groups).countP
          (fun s => !canOpen (outArg.dropRight 4 ++ "_" ++ s ++ "-order.csv")) := by
        have hc3 : 2 ≤ (suppliersInUse lib groups).countP
            (fun s => !canOpen (outArg.dropRight 4 ++ "_" ++ s ++ "-order.csv")) + 0 := hc
        omega
      simp only [Bool.not_true]
      exact orderOutputsClosing_aborts2 b (outArg.dropRight 4) h
        (suppliersInUse lib groups) hc2

/-- **C7** (counterexample): the claim as stated — every output-file open
failure is non-fatal and the run continues to completion — is false.  With
no openable path and one group ordered from "Digikey", the aggregate BOM
falls back to standard output and line 133 closes it; the Digikey order
file's failed open then aborts the run with an uncaught `ValueError`, and
that order output is never produced anywhere. -/
theorem stdout_fallback_not_always_nonfatal :
    suppliersInUse [] [[⟨"", "", "", false, [("Order From", "Digikey")]⟩]] =
        ["Digikey"] ∧
    (runOutputsClosing neverOpen [] "out.csv" 1
        [[⟨"", "", "", false, [("Order From", "Digikey")]⟩]]).err =
      some "ValueError" ∧
    (runOutputsClosing neverOpen [] "out.csv" 1
        [[⟨"", "", "", false, [("Order From", "Digikey")]⟩]]).outputs.map
        Output.path = ["out_BOM.csv"] := by
  refine ⟨by decide, by decide, by decide⟩

/-- Witness for `open_failure_fallback_amended`: with exactly the aggregate
path unopenable and one supplier in use, the run completes; the aggregate
rows go to standard output and the Digikey order file is written. -/
theorem open_failure_fallback_amended_witness :
    (∀ g ∈ [[(⟨"", "", "", false, [("Order From", "Digikey")]⟩ : comp)]],
        perOf [] g ≠ 0) ∧
    ((("out.csv".dropRight 4 ++ "_BOM.csv") ::
        (suppliersInUse [] [[⟨"", "", "", false, [("Order From", "Digikey")]⟩]]).map
          (fun s => "out.csv".dropRight 4 ++ "_" ++ s ++ "-order.csv")).countP
          (fun p => !failsOnly "out_BOM.csv" p) ≤ 1) ∧
    runOutputsClosing (failsOnly "out_BOM.csv") [] "out.csv" 1
        [[⟨"", "", "", false, [("Order From", "Digikey")]⟩]] =
      ⟨runOutputsVal (failsOnly "out_BOM.csv") [] "out.csv" 1
        [[⟨"", "", "", false, [("Order From", "Digikey")]⟩]], none⟩ :=
  ⟨by decide, by decide,
    (open_failure_fallback_amended (failsOnly "out_BOM.csv") [] "out.csv" 1
      [[⟨"", "", "", false, [("Order From", "Digikey")]⟩]] (by decide)).1 (by decide)⟩

/-- **C9**: for output argument `outArg` (stem = `outArg` minus its ".csv"
suffix), the aggregate BOM goes to `stem ++ "_BOM.csv"` and each supplier
`s` in use gets `stem ++ "_" ++ s ++ "-order.csv"`, each written to its file
whenever it can be opened. -/
theorem output_paths (canOpen : String → Bool) (lib : List (String × String))
    (outArg : String) (b : Int) (groups : List (List comp))
    (h : ∀ g ∈ groups, perOf lib g ≠ 0) :
    ∃ outs, runOutputs canOpen lib outArg b groups = some outs ∧
      outs.map Output.path =
        (outArg.dropRight 4 ++ "_BOM.csv") ::
          (suppliersInUse lib groups).map
            (fun s => outArg.dropRight 4 ++ "_" ++ s ++ "-order.csv") ∧
      ∀ o ∈ outs, o.dest = destFor canOpen o.path := by
  refine ⟨runOutputsVal canOpen lib outArg b groups, runOutputs_of_ne canOpen outArg b h,
    ?_, ?_⟩
  · simp [runOutputsVal, List.map_map]
  · intro o ho
    simp only [runOutputsVal, List.mem_cons, List.mem_map] at ho
    rcases ho with rfl | ⟨s, _, rfl⟩ <;> rfl

/-- Witness for `output_paths`: one group ordered from "Digikey", output
argument "brd.csv". -/
theorem output_paths_witness :
    (∀ g ∈ [[(⟨"", "", "", false, [("Order From", "Digikey")]⟩ : comp)]],
        perOf [] g ≠ 0) ∧
    ∃ outs,
      runOutputs alwaysOpen [] "brd.csv" 2
          [[⟨"", "", "", false, [("Order From", "Digikey")]⟩]] = some outs ∧
        outs.map Output.path =
          ("brd.csv".dropRight 4 ++ "_BOM.csv") ::
            (suppliersInUse [] [[⟨"", "", "", false, [("Order From", "Digikey")]⟩]]).map
              (fun s => "brd.csv".dropRight 4 ++ "_" ++ s ++ "-order.csv") ∧
        ∀ o ∈ outs, o.dest = destFor alwaysOpen o.path :=
  ⟨by decide, output_paths alwaysOpen [] "brd.csv" 2
    [[⟨"", "", "", false, [("Order From", "Digikey")]⟩]] (by decide)⟩

/-- **C3**: the aggregate BOM output holds the fixed header row followed by
exactly one row per group, in group order: pretty name, qty per unit, Units,
cost, and — only when the group's "Order From" field is set — that
supplier's Link and P/N columns; when "Order From" is empty the row stops
after the cost column. -/
theorem aggregate_bom_emission (canOpen : String → Bool)
    (lib : List (String × String)) (outArg : String) (b : Int)
    (groups : List (List comp)) (h : ∀ g ∈ groups, perOf lib g ≠ 0) :
    (∃ rest, runOutputs canOpen lib outArg b groups =
      some (⟨outArg.dropRight 4 ++ "_BOM.csv",
        destFor canOpen (outArg.dropRight 4 ++ "_BOM.csv"),
        aggHeader :: groups.map (aggRowVal lib b)⟩ :: rest)) ∧
    ∀ g ∈ groups,
      aggRowVal lib b g =
        if getGroupField lib g "Order From" = "" then
          [getGroupField lib g "Pretty Name", toString (perOf lib g),
            toString (unitsVal lib b g), getGroupField lib g "Cost/Unit"]
        else
          [getGroupField lib g "Pretty Name", toString (perOf lib g),
            toString (unitsVal lib b g), getGroupField lib g "Cost/Unit",
            getGroupField lib g (getGroupField lib g "Order From" ++ " Link"),
            getGroupField lib g (getGroupField lib g "Order From" ++ " P/N")] := by
  constructor
  · exact ⟨_, runOutputs_of_ne canOpen outArg b h⟩
  · intro g _
    by_cases hsrc : getGroupField lib g "Order From" = "" <;>
      simp [aggRowVal, hsrc]

/-- Witness for `aggregate_bom_emission`: two groups, one with a supplier
set and one without. -/
theorem aggregate_bom_emission_witness :
    (∀ g ∈ [[(⟨"", "", "", false, [("Order From", "Digikey")]⟩ : comp)],
        [(⟨"", "", "", false, []⟩ : comp)]], perOf [] g ≠ 0) ∧
    ((∃ rest, runOutputs alwaysOpen [] "brd.csv" 1
        [[⟨"", "", "", false, [("Order From", "Digikey")]⟩], [⟨"", "", "", false, []⟩]] =
      some (⟨"brd.csv".dropRight 4 ++ "_BOM.csv",
        destFor alwaysOpen ("brd.csv".dropRight 4 ++ "_BOM.csv"),
        aggHeader ::
          [[⟨"", "", "", false, [("Order From", "Digikey")]⟩],
            [⟨"", "", "", false, []⟩]].map (aggRowVal [] 1)⟩ :: rest)) ∧
    ∀ g ∈ [[(⟨"", "", "", false, [("Order From", "Digikey")]⟩ : comp)],
        [(⟨"", "", "", false, []⟩ : comp)]],
      aggRowVal [] 1 g =
        if getGroupField [] g "Order From" = "" then
          [getGroupField [] g "Pretty Name", toString (perOf [] g),
            toString (unitsVal [] 1 g), getGroupField [] g "Cost/Unit"]
        else
          [getGroupField [] g "Pretty Name", toString (perOf [] g),
            toString (unitsVal [] 1 g), getGroupField [] g "Cost/Unit",
            getGroupField [] g (getGroupField [] g "Order From" ++ " Link"),
            getGroupField [] g (getGroupField [] g "Order From" ++ " P/N")]) :=
  ⟨by decide, aggregate_bom_emission alwaysOpen [] "brd.csv" 1
    [[⟨"", "", "", false, [("Order From", "Digikey")]⟩], [⟨"", "", "", false, []⟩]]
    (by decide)⟩

/-- **C4**: an order file is produced for exactly the supplier names that
occur as the non-empty "Order From" value of at least one group, and the
file for supplier `s` holds the header and one row per group ordered from
`s` — only those — with columns pretty name, Order Qty, "s P/N", "s Link". -/
theorem supplier_order_emission (lib : List (String × String)) (b : Int)
    (groups : List (List comp)) (s : String)
    (h : ∀ g ∈ groups, perOf lib g ≠ 0) :
    (s ∈ suppliersInUse lib groups ↔
      s ≠ "" ∧ ∃ g ∈ groups, getGroupField lib g "Order From" = s) ∧
    orderFileRows lib b s groups =
      some (orderHeader ::
        (groups.filter (fun g => getGroupField lib g "Order From" == s)).map
          (fun g => [getGroupField lib g "Pretty Name", toString (unitsVal lib b g),
            getGroupField lib g (s ++ " P/N"), getGroupField lib g (s ++ " Link")])) ∧
    ∀ canOpen outArg, runOutputs canOpen lib outArg b groups =
      some (⟨outArg.dropRight 4 ++ "_BOM.csv",
          destFor canOpen (outArg.dropRight 4 ++ "_BOM.csv"),
          aggHeader :: groups.map (aggRowVal lib b)⟩ ::
        (suppliersInUse lib groups).map (fun t =>
          ⟨outArg.dropRight 4 ++ "_" ++ t ++ "-order.csv",
            destFor canOpen (outArg.dropRight 4 ++ "_" ++ t ++ "-order.csv"),
            orderFileRowsVal lib b t groups⟩)) := by
  refine ⟨?_, ?_, ?_⟩
  · constructor
    · intro hs
      simp only [suppliersInUse, List.mem_dedup, List.mem_filter, List.mem_map,
        bne_iff_ne] at hs
      obtain ⟨⟨g, hg, hfg⟩, hne⟩ := hs
      exact ⟨hne, g, hg, hfg⟩
    · intro ⟨hne, g, hg, hfg⟩
      simp only [suppliersInUse, List.mem_dedup, List.mem_filter, List.mem_map,
        bne_iff_ne]
      exact ⟨⟨g, hg, hfg⟩, hne⟩
  · rw [orderFileRows_of_ne b s h]
    rfl
  · intro canOpen outArg
    exact runOutputs_of_ne canOpen outArg b h

/-- Witness for `supplier_order_emission`: two groups ordered from
"Digikey", one group from nobody; "Mouser" is known but unused, so it is not
a supplier in use. -/
theorem supplier_order_emission_witness :
    (∀ g ∈ [[(⟨"", "", "", false, [("Order From", "Digikey")]⟩ : comp)],
        [(⟨"", "", "", false, []⟩ : comp)]], perOf [] g ≠ 0) ∧
    ("Digikey" ∈ suppliersInUse [] [[⟨"", "", "", false, [("Order From", "Digikey")]⟩],
        [⟨"", "", "", false, []⟩]] ↔
      "Digikey" ≠ "" ∧ ∃ g ∈ [[(⟨"", "", "", false, [("Order From", "Digikey")]⟩ : comp)],
        [(⟨"", "", "", false, []⟩ : comp)]],
          getGroupField [] g "Order From" = "Digikey") ∧
    orderFileRows [] 1 "Digikey" [[⟨"", "", "", false, [("Order From", "Digikey")]⟩],
        [⟨"", "", "", false, []⟩]] =
      some (orderHeader ::
        ([[(⟨"", "", "", false, [("Order From", "Digikey")]⟩ : comp)],
          [(⟨"", "", "", false, []⟩ : comp)]].filter
            (fun g => getGroupField [] g "Order From" == "Digikey")).map
          (fun g => [getGroupField [] g "Pretty Name", toString (unitsVal [] 1 g),
            getGroupField [] g ("Digikey" ++ " P/N"),
            getGroupField [] g ("Digikey" ++ " Link")])) ∧
    ∀ canOpen outArg, runOutputs canOpen [] outArg 1
        [[⟨"", "", "", false, [("Order From", "Digikey")]⟩], [⟨"", "", "", false, []⟩]] =
      some (⟨outArg.dropRight 4 ++ "_BOM.csv",
          destFor canOpen (outArg.dropRight 4 ++ "_BOM.csv"),
          aggHeader :: [[(⟨"", "", "", false, [("Order From", "Digikey")]⟩ : comp)],
            [(⟨"", "", "", false, []⟩ : comp)]].map (aggRowVal [] 1)⟩ ::
        (suppliersInUse [] [[⟨"", "", "", false, [("Order From", "Digikey")]⟩],
            [⟨"", "", "", false, []⟩]]).map (fun t =>
          ⟨outArg.dropRight 4 ++ "_" ++ t ++ "-order.csv",
            destFor canOpen (outArg.dropRight 4 ++ "_" ++ t ++ "-order.csv"),
            orderFileRowsVal [] 1 t [[⟨"", "", "", false, [("Order From", "Digikey")]⟩],
              [⟨"", "", "", false, []⟩]]⟩)) :=
  ⟨by decide, supplier_order_emission [] 1
    [[⟨"", "", "", false, [("Order From", "Digikey")]⟩], [⟨"", "", "", false, []⟩]]
    "Digikey" (by decide)⟩

theorem headI_append_single {g : List comp} (c : comp) (h : g ≠ []) :
    (g ++ [c]).headI = g.headI := by
  cases g with
  | nil => exact absurd rfl h
  | cons a t => rfl

theorem not_sameKey_of_myEqu_false {a b : comp} (h : myEqu a b = false) :
    ¬ sameKey a b := by
  intro hk
  rw [(myEqu_iff a b).mpr hk] at h
  cases h

theorem mem_insertGrouped {c : comp} :
    ∀ {gs : List (List comp)} {g2 : List comp}, g2 ∈ insertGrouped c gs →
      g2 = [c] ∨ g2 ∈ gs ∨ ∃ g ∈ gs, g2 = g ++ [c] := by
  intro gs
  induction gs with
  | nil =>
    intro g2 hg2
    simp only [insertGrouped, List.mem_singleton] at hg2
    exact Or.inl hg2
  | cons g gs ih =>
    intro g2 hg2
    cases he : myEqu g.headI c with
    | true =>
      rw [insertGrouped, if_pos he] at hg2
      rcases List.mem_cons.mp hg2 with rfl | hmem
      · exact Or.inr (Or.inr ⟨g, List.mem_cons_self g gs, rfl⟩)
      · exact Or.inr (Or.inl (List.mem_cons_of_mem g hmem))
    | false =>
      rw [insertGrouped, if_neg (by simp [he])] at hg2
      rcases List.mem_cons.mp hg2 with rfl | hmem
      · exact Or.inr (Or.inl (List.mem_cons_self g2 gs))
      · rcases ih hmem with h1 | h2 | ⟨g3, hg3, rfl⟩
        · exact Or.inl h1
        · exact Or.inr (Or.inl (List.mem_cons_of_mem g h2))
        · exact Or.inr (Or.inr ⟨g3, List.mem_cons_of_mem g hg3, rfl⟩)

theorem mem_flatten_insertGrouped {x c : comp} :
    ∀ {gs : List (List comp)},
      (x ∈ (insertGrouped c gs).flatten ↔ x = c ∨ x ∈ gs.flatten) := by
  intro gs
  induction gs with
  | nil => simp [insertGrouped]
  | cons g gs ih =>
    cases he : myEqu g.headI c with
    | true =>
      rw [insertGrouped, if_pos he]
      simp only [List.flatten_cons, List.mem_append, List.mem_singleton]
      tauto
    | false =>
      rw [insertGrouped, if_neg (by simp [he])]
      simp only [List.flatten_cons, List.mem_append, ih]
      tauto

theorem groupsWF_tail {g : List comp} {gs : List (List comp)}
    (h : GroupsWF (g :: gs)) : GroupsWF gs :=
  ⟨fun g2 hg2 => h.1 g2 (List.mem_cons_of_mem g hg2),
    fun g2 hg2 => h.2.1 g2 (List.mem_cons_of_mem g hg2),
    (List.pairwise_cons.mp h.2.2).2⟩

theorem groupsWF_insert {c : comp} :
    ∀ {gs : List (List comp)}, GroupsWF gs → GroupsWF (insertGrouped c gs) := by
  intro gs
  induction gs with
  | nil =>
    intro _
    refine ⟨?_, ?_, ?_⟩
    · intro g hg
      simp only [insertGrouped, List.mem_singleton] at hg
      simp [hg]
    · intro g hg x hx
      simp only [insertGrouped, List.mem_singleton] at hg
      subst hg
      simp only [List.mem_singleton] at hx
      subst hx
      exact sameKey_refl _
    · simp [insertGrouped]
  | cons g gs ih =>
    intro hwf
    have hgne : g ≠ [] := hwf.1 g (List.mem_cons_self g gs)
    have hpw := List.pairwise_cons.mp hwf.2.2
    cases he : myEqu g.headI c with
    | true =>
      rw [insertGrouped, if_pos he]
      refine ⟨?_, ?_, ?_⟩
      · intro g2 hg2
        rcases List.mem_cons.mp hg2 with rfl | hmem
        · simp
        · exact hwf.1 g2 (List.mem_cons_of_mem g hmem)
      · intro g2 hg2 x hx
        rcases List.mem_cons.mp hg2 with rfl | hmem
        · rw [headI_append_single c hgne]
          rcases List.mem_append.mp hx with hxg | hxc
          · exact hwf.2.1 g (List.mem_cons_self g gs) x hxg
          · rw [List.mem_singleton.mp hxc]
            exact (myEqu_iff g.headI c).mp he
        · exact hwf.2.1 g2 (List.mem_cons_of_mem g hmem) x hx
      · refine List.pairwise_cons.mpr ⟨?_, hpw.2⟩
        intro g2 hg2
        rw [headI_append_single c hgne]
        exact hpw.1 g2 hg2
    | false =>
      rw [insertGrouped, if_neg (by simp [he])]
      have ihw := ih (groupsWF_tail hwf)
      refine ⟨?_, ?_, ?_⟩
      · intro g2 hg2
        rcases List.mem_cons.mp hg2 with rfl | hmem
        · exact hgne
        · exact ihw.1 g2 hmem
      · intro g2 hg2 x hx
        rcases List.mem_cons.mp hg2 with rfl | hmem
        · exact hwf.2.1 g2 (List.mem_cons_self g2 gs) x hx
        · exact ihw.2.1 g2 hmem x hx
      · refine List.pairwise_cons.mpr ⟨?_, ihw.2.2⟩
        intro g2 hg2
        rcases mem_insertGrouped hg2 with rfl | hmem | ⟨g3, hg3, rfl⟩
        · simpa using not_sameKey_of_myEqu_false he
        · exact hpw.1 g2 hmem
        · rw [headI_append_single c (hwf.1 g3 (List.mem_cons_of_mem g hg3))]
          exact hpw.1 g3 hg3

theorem groupsWF_foldl :
    ∀ (cs : List comp) (gs : List (List comp)), GroupsWF gs →
      GroupsWF (cs.foldl (fun a c => insertGrouped c a) gs) := by
  intro cs
  induction cs with
  | nil => intro gs h; exact h
  | cons c cs ih => intro gs h; exact ih _ (groupsWF_insert h)

theorem mem_flatten_foldl {x : comp} :
    ∀ (cs : List comp) (gs : List (List comp)),
      (x ∈ (cs.foldl (fun a c => insertGrouped c a) gs).flatten ↔
        x ∈ cs ∨ x ∈ gs.flatten) := by
  intro cs
  induction cs with
  | nil => intro gs; simp
  | cons c cs ih =>
    intro gs
    rw [List.foldl_cons, ih, mem_flatten_insertGrouped]
    simp only [List.mem_cons]
    tauto

theorem groupComponents_wf (cs : List comp) : GroupsWF (groupComponents cs) :=
  groupsWF_foldl cs [] ⟨by simp, by simp, List.Pairwise.nil⟩

theorem mem_flatten_groupComponents {x : comp} (cs : List comp) :
    x ∈ (groupComponents cs).flatten ↔ x ∈ cs := by
  rw [groupComponents, mem_flatten_foldl]
  simp

theorem group_eq_of_mem {gs : List (List comp)} (hwf : GroupsWF gs)
    {g g2 : List comp} {x y : comp} (hg : g ∈ gs) (hg2 : g2 ∈ gs)
    (hx : x ∈ g) (hy : y ∈ g2) (hk : sameKey x y) : g = g2 := by
  by_contra hne
  have h1 : sameKey g.headI x := hwf.2.1 g hg x hx
  have h2 : sameKey g2.headI y := hwf.2.1 g2 hg2 y hy
  have hkey : sameKey g.headI g2.headI :=
    sameKey_trans (sameKey_trans h1 hk) (sameKey_symm h2)
  have hsym : Symmetric (fun a b : List comp => ¬ sameKey a.headI b.headI) :=
    fun a b hab hba => hab (sameKey_symm hba)
  exact hwf.2.2.forall hsym hg hg2 hne hkey

/-- **C2**: after grouping, every interesting component lies in exactly one
group, and two components are co-grouped exactly when they agree on all four
of Value, PartName, Footprint and DNP. -/
theorem groupComponents_partition (cs : List comp) (c d : comp)
    (hc : c ∈ cs) (hd : d ∈ cs) :
    (∃! g, g ∈ groupComponents cs ∧ c ∈ g) ∧
    ((∃ g ∈ groupComponents cs, c ∈ g ∧ d ∈ g) ↔
      (c.value = d.value ∧ c.partName = d.partName ∧ c.footprint = d.footprint ∧
        c.dnp = d.dnp)) := by
  have hwf := groupComponents_wf cs
  obtain ⟨gc, hgc, hcgc⟩ :=
    List.mem_flatten.mp ((mem_flatten_groupComponents cs).mpr hc)
  obtain ⟨gd, hgd, hdgd⟩ :=
    List.mem_flatten.mp ((mem_flatten_groupComponents cs).mpr hd)
  constructor
  · refine ⟨gc, ⟨hgc, hcgc⟩, ?_⟩
    intro g2 hg2
    exact group_eq_of_mem hwf hg2.1 hgc hg2.2 hcgc (sameKey_refl c)
  · constructor
    · rintro ⟨g, hg, hcg, hdg⟩
      exact sameKey_trans (sameKey_symm (hwf.2.1 g hg c hcg)) (hwf.2.1 g hg d hdg)
    · intro hk
      have heq : gc = gd := group_eq_of_mem hwf hgc hgd hcgc hdgd hk
      exact ⟨gc, hgc, hcgc, heq ▸ hdgd⟩

/-- Witness for `groupComponents_partition`: three components, two sharing
all four compared fields (but differing in other fields) and one differing
in Value. -/
theorem groupComponents_partition_witness :
    ((⟨"1k", "R", "0402", false, []⟩ : comp) ∈
        [(⟨"1k", "R", "0402", false, []⟩ : comp), ⟨"2k", "R", "0402", false, []⟩,
          ⟨"1k", "R", "0402", false, [("Pretty Name", "res")]⟩]) ∧
    ((⟨"1k", "R", "0402", false, [("Pretty Name", "res")]⟩ : comp) ∈
        [(⟨"1k", "R", "0402", false, []⟩ : comp), ⟨"2k", "R", "0402", false, []⟩,
          ⟨"1k", "R", "0402", false, [("Pretty Name", "res")]⟩]) ∧
    ((∃! g, g ∈ groupComponents
        [(⟨"1k", "R", "0402", false, []⟩ : comp), ⟨"2k", "R", "0402", false, []⟩,
          ⟨"1k", "R", "0402", false, [("Pretty Name", "res")]⟩] ∧
        (⟨"1k", "R", "0402", false, []⟩ : comp) ∈ g) ∧
      ((∃ g ∈ groupComponents
          [(⟨"1k", "R", "0402", false, []⟩ : comp), ⟨"2k", "R", "0402", false, []⟩,
            ⟨"1k", "R", "0402", false, [("Pretty Name", "res")]⟩],
          (⟨"1k", "R", "0402", false, []⟩ : comp) ∈ g ∧
          (⟨"1k", "R", "0402", false, [("Pretty Name", "res")]⟩ : comp) ∈ g) ↔
        ((⟨"1k", "R", "0402", false, []⟩ : comp).value =
            (⟨"1k", "R", "0402", false, [("Pretty Name", "res")]⟩ : comp).value ∧
          (⟨"1k", "R", "0402", false, []⟩ : comp).partName =
            (⟨"1k", "R", "0402", false, [("Pretty Name", "res")]⟩ : comp).partName ∧
          (⟨"1k", "R", "0402", false, []⟩ : comp).footprint =
            (⟨"1k", "R", "0402", false, [("Pretty Name", "res")]⟩ : comp).footprint ∧
          (⟨"1k", "R", "0402", false, []⟩ : comp).dnp =
            (⟨"1k", "R", "0402", false, [("Pretty Name", "res")]⟩ : comp).dnp))) :=
  ⟨by decide, by decide,
    groupComponents_partition _ _ _ (by decide) (by decide)⟩

theorem mk_toList (s : String) : String.mk s.toList = s := rfl

theorem toList_append (s t : String) : (s ++ t).toList = s.toList ++ t.toList := rfl

theorem toList_mk (l : List Char) : (String.mk l).toList = l := rfl

theorem toList_newline : ("\n" : String).toList = ['\n'] := rfl

theorem toList_comma : ("," : String).toList = [','] := rfl

theorem parseFieldsAux_esc (f : List Char) :
    ∀ (rest cur : List Char) (acc : List String),
      parseFieldsAux (escQuote f ++ rest) cur acc =
        parseFieldsAux rest (f.reverse ++ cur) acc := by
  induction f with
  | nil => intro rest cur acc; simp [escQuote]
  | cons ch f ih =>
    intro rest cur acc
    by_cases hch : ch = '"'
    · subst hch
      rw [show escQuote ('"' :: f) ++ rest = '"' :: '"' :: (escQuote f ++ rest) from by
          simp [escQuote]]
      rw [show parseFieldsAux ('"' :: '"' :: (escQuote f ++ rest)) cur acc =
            parseFieldsAux (escQuote f ++ rest) ('"' :: cur) acc from rfl]
      rw [ih]
      simp
    · rw [show escQuote (ch :: f) ++ rest = ch :: (escQuote f ++ rest) from by
          simp [escQuote, hch]]
      conv_lhs => rw [parseFieldsAux.eq_def]
      simp only []
      rw [if_neg hch, ih]
      simp

theorem parseFieldsAux_recTail :
    ∀ (fs : List String) (f : String) (cur : List Char) (acc : List String),
      parseFieldsAux (recTail (f :: fs)) cur acc =
        some (acc.reverse ++ (String.mk (cur.reverse ++ f.toList) :: fs)) := by
  intro fs
  induction fs with
  | nil =>
    intro f cur acc
    rw [show recTail [f] = escQuote f.toList ++ ['"', '\n'] from rfl]
    rw [parseFieldsAux_esc]
    rw [show parseFieldsAux ['"', '\n'] (f.toList.reverse ++ cur) acc =
        some ((String.mk (f.toList.reverse ++ cur).reverse :: acc).reverse) from rfl]
    simp
  | cons g gs ih =>
    intro f cur acc
    rw [show recTail (f :: g :: gs) =
        escQuote f.toList ++ ('"' :: ',' :: '"' :: recTail (g :: gs)) from rfl]
    rw [parseFieldsAux_esc]
    rw [show parseFieldsAux ('"' :: ',' :: '"' :: recTail (g :: gs))
          (f.toList.reverse ++ cur) acc =
        parseFieldsAux (recTail (g :: gs)) []
          (String.mk (f.toList.reverse ++ cur).reverse :: acc) from rfl]
    rw [ih]
    simp [mk_toList]

theorem csvLine_data :
    ∀ (fs : List String) (f : String),
      (csvLine (f :: fs)).data = '"' :: recTail (f :: fs) := by
  intro fs
  induction fs with
  | nil =>
    intro f
    simp [csvLine, csvQuote, recTail, String.data_append, toList_newline,
      List.append_assoc]
  | cons g gs ih =>
    intro f
    simp [csvLine, csvQuote, recTail, String.data_append, toList_comma, ih,
      List.append_assoc]

theorem csvLine_toList (f : String) (fs : List String) :
    (csvLine (f :: fs)).toList = '"' :: recTail (f :: fs) :=
  csvLine_data fs f

theorem parseCsvLine_csvLine (f : String) (fs : List String) :
    parseCsvLine (csvLine (f :: fs)) = some (f :: fs) := by
  have h2 : parseCsvLine (csvLine (f :: fs)) = parseFieldsAux (recTail (f :: fs)) [] [] := by
    unfold parseCsvLine
    rw [csvLine_toList]
    rfl
  rw [h2, parseFieldsAux_recTail]
  simp [mk_toList]

theorem aggRow_ne_nil {lib : List (String × String)} {b : Int} {g : List comp}
    {r : List String} (h : aggRow lib b g = some r) : r ≠ [] := by
  simp only [aggRow] at h
  cases hu : unitsExpr g.length b (perOf lib g) with
  | none => rw [hu] at h; cases h
  | some u =>
    rw [hu] at h
    simp only [Option.some_inj] at h
    subst h
    split <;> simp

theorem orderRow_ne_nil {lib : List (String × String)} {b : Int} {s : String}
    {g : List comp} {r : List String} (h : orderRow lib b s g = some r) : r ≠ [] := by
  simp only [orderRow] at h
  cases hu : unitsExpr g.length b (perOf lib g) with
  | none => rw [hu] at h; cases h
  | some u =>
    rw [hu] at h
    simp only [Option.some_inj] at h
    subst h
    simp

theorem orderFileRows_rows_ne_nil {lib : List (String × String)} {b : Int}
    {s : String} {groups : List (List comp)} {rs : List (List String)}
    (h : orderFileRows lib b s groups = some rs) : ∀ row ∈ rs, row ≠ [] := by
  simp only [orderFileRows] at h
  cases hm : mapOpt (orderRow lib b s)
      (groups.filter (fun g => getGroupField lib g "Order From" == s)) with
  | none => rw [hm] at h; cases h
  | some rows2 =>
    rw [hm] at h
    simp only [Option.map_some', Option.some_inj] at h
    subst h
    intro row hrow
    rcases List.mem_cons.mp hrow with rfl | hr
    · simp [orderHeader]
    · obtain ⟨g, _, hgr⟩ := mem_of_mapOpt hm row hr
      exact orderRow_ne_nil hgr

theorem runOutputs_rows_ne_nil {canOpen : String → Bool}
    {lib : List (String × String)} {outArg : String} {b : Int}
    {groups : List (List comp)} {outs : List Output}
    (hrun : runOutputs canOpen lib outArg b groups = some outs) :
    ∀ o ∈ outs, ∀ row ∈ o.rows, row ≠ [] := by
  simp only [runOutputs] at hrun
  cases hagg : mapOpt (aggRow lib b) groups with
  | none => rw [hagg] at hrun; cases hrun
  | some aggRows =>
    rw [hagg] at hrun
    cases hord : orderOutputsCore lib b (outArg.dropRight 4) groups with
    | none => rw [hord] at hrun; cases hrun
    | some ords =>
      rw [hord] at hrun
      simp only [Option.some_inj] at hrun
      subst hrun
      intro o ho row hrow
      rcases List.mem_cons.mp ho with rfl | hmem
      · rcases List.mem_cons.mp hrow with rfl | hr2
        · simp [aggHeader]
        · obtain ⟨g, _, hgr⟩ := mem_of_mapOpt hagg row hr2
          exact aggRow_ne_nil hgr
      · obtain ⟨pr, hpr, rfl⟩ := List.mem_map.mp hmem
        obtain ⟨s, _, hfs⟩ := mem_of_mapOpt hord pr hpr
        cases hof : orderFileRows lib b s groups with
        | none => rw [hof] at hfs; cases hfs
        | some rs =>
          rw [hof] at hfs
          simp only [Option.map_some', Option.some_inj] at hfs
          subst hfs
          exact orderFileRows_rows_ne_nil hof row hrow

/-- **C10**: every row of every produced output — headers included — is
emitted by the fully-quoting writer (`QUOTE_ALL`, comma delimiter, newline
terminator), and parsing the emitted record back recovers exactly the
original fields whatever their content, so a field containing a comma (or a
quote, or a newline) survives as one field. -/
theorem csv_rows_fully_quoted (canOpen : String → Bool)
    (lib : List (String × String)) (outArg : String) (b : Int)
    (groups : List (List comp)) (outs : List Output)
    (hrun : runOutputs canOpen lib outArg b groups = some outs) :
    ∀ o ∈ outs, ∀ row ∈ o.rows, row ≠ [] ∧ parseCsvLine (csvLine row) = some row := by
  intro o ho row hrow
  have hne := runOutputs_rows_ne_nil hrun o ho row hrow
  refine ⟨hne, ?_⟩
  cases row with
  | nil => exact absurd rfl hne
  | cons f fs => exact parseCsvLine_csvLine f fs

/-- Witness for `csv_rows_fully_quoted`: the aggregate BOM of an empty
netlist, whose single row is the header. -/
theorem csv_rows_fully_quoted_witness :
    runOutputs alwaysOpen [] "o.csv" 1 [] =
      some [⟨"o_BOM.csv", Dest.file "o_BOM.csv", [aggHeader]⟩] ∧
    ∀ o ∈ [(⟨"o_BOM.csv", Dest.file "o_BOM.csv", [aggHeader]⟩ : Output)],
      ∀ row ∈ o.rows, row ≠ [] ∧ parseCsvLine (csvLine row) = some row :=
  ⟨by decide, csv_rows_fully_quoted alwaysOpen [] "o.csv" 1 []
    [⟨"o_BOM.csv", Dest.file "o_BOM.csv", [aggHeader]⟩] (by decide)⟩

end BomBfr
